import Mathlib

/-!
# bpfpinger (`yap.go`): the correlation engine and its statistics reducer

A shallow embedding of `src/yap.go`.

* Go `int` values are `Int`; `uint16` fields are `Nat` values below `65536`.
* Go `float64` values are rationals (`ℚ`).  `reduce` computes in exact
  arithmetic; `reduceF64` is the same code with every float64 operation
  rounded to nearest, ties to even.  NaN and infinities are not modelled.
  `math.MaxFloat64` is the rational `2^1024 - 2^971`.
* Go maps with `string` keys are association lists with distinct keys.
* The goroutines of one call (the sending loop of `Call`, the collecting loop of
  `call`) and the dispatcher `serveConn` are interleaved by an explicit list of
  events; the collaborators (resolver, clock, capture) appear as inputs.
-/

namespace Yap

/-! ## Go maps keyed by strings -/

/-- A Go `map[string]ν`: an association list whose keys are pairwise distinct. -/
abbrev GoMap (ν : Type) := List (String × ν)

namespace GoMap

/-- The Go expression `make(map[string]ν)`. -/
def make {ν : Type} : GoMap ν := []

/-- The Go expression `v, ok := m[k]`. -/
def find {ν : Type} (m : GoMap ν) (k : String) : Option ν := List.lookup k m

/-- The Go statement `delete(m, k)`. -/
def remove {ν : Type} (m : GoMap ν) (k : String) : GoMap ν :=
  m.filter (fun e => e.1 != k)

/-- The Go statement `m[k] = v`. -/
def store {ν : Type} (m : GoMap ν) (k : String) (v : ν) : GoMap ν :=
  (k, v) :: remove m k

/-- The Go expression `len(m)`. -/
def size {ν : Type} (m : GoMap ν) : Nat := m.length

end GoMap

/-! ## Data model -/

/-- The constant `DefaultPingCount`. -/
def DefaultPingCount : Int := 3

/-- The constant `DefaultPingInterval` (`0x0F`). -/
def DefaultPingInterval : Int := 15

/-- The constant `DefaultTimeout`. -/
def DefaultTimeout : Int := 3000

/-- The constant `math.MaxUint16`. -/
def MaxUint16 : Int := 65535

/-- The constant `math.MaxFloat64`, as an exact rational. -/
def MaxFloat64 : ℚ := 2 ^ 1024 - 2 ^ 971

/-- The struct `Request`. -/
structure Request where
  id : Int
  deadline : Int
  resolved : String
  Target : String
  Count : Int
  Interval : Int
  Timeout : Int
deriving DecidableEq

/-- The struct `Response`; `Error` is `none` for the nil error. -/
structure Response where
  Target : String
  Error : Option String
  PkgLoss : ℚ
  RTTMax : ℚ
  RTTMin : ℚ
  RTTMean : ℚ
deriving DecidableEq

/-- The struct `echoReq`. -/
structure echoReq where
  id : Int
  seq : Int
  t : ℚ
deriving DecidableEq

/-- The struct `echoRsp`; `id`, `seq` are `uint16` and `code` is `uint8`. -/
structure echoRsp where
  id : Nat
  seq : Nat
  code : Nat
  t : ℚ
deriving DecidableEq

/-- The function `genid`: `fmt.Sprintf("%v:%v", a, b)`. -/
def genid {α β : Type} [ToString α] [ToString β] (a : α) (b : β) : String :=
  toString a ++ ":" ++ toString b

/-- The method `Request.rid`. -/
def Request.rid (r : Request) : String := genid r.id r.resolved

/-- The method `Request.setDefaults`. -/
def Request.setDefaults (r : Request) : Request :=
  let r := if r.Count ≤ 0 then { r with Count := DefaultPingCount } else r
  let r := if r.Interval ≤ 0 then { r with Interval := DefaultPingInterval } else r
  if r.Timeout ≤ 0 then { r with Timeout := DefaultTimeout } else r

/-! ## The statistics reducer (the tail of `Pinger.call`) -/

/-- The locals `best`, `loss`, `mean`, `worst` of `Pinger.call`. -/
structure Stats where
  best : ℚ
  loss : ℚ
  mean : ℚ
  worst : ℚ
deriving DecidableEq

/-- The locals before the reducing loop: `best := math.MaxFloat64` and
`var loss, mean, worst float64`. -/
def Stats.init : Stats := { best := MaxFloat64, loss := 0, mean := 0, worst := 0 }

/-- One iteration of `for i := 0; i < req.Count; i++` in `Pinger.call`. -/
def reduceStep (calcMap : GoMap ℚ) (id : Int) (s : Stats) (i : Nat) : Stats :=
  match calcMap.find (genid id (i : Int)) with
  | none => { s with loss := s.loss + 1 }
  | some v0 =>
    let v := if v0 > 1000000 then 0 else v0
    let best := if s.best > v then v else s.best
    let worst := if s.worst < v then v else s.worst
    { s with best := best, worst := worst, mean := s.mean + v }

/-- The reducing loop of `Pinger.call`, over `i = 0 .. req.Count - 1`. -/
def reduceLoop (req : Request) (calcMap : GoMap ℚ) : Stats :=
  (List.range req.Count.toNat).foldl (reduceStep calcMap req.id) Stats.init

/-- The end of `Pinger.call`: the packet loss, the total-loss override and the
`Response` sent on `done`. -/
def finish (req : Request) (s : Stats) : Response :=
  let pkgloss := s.loss / (req.Count : ℚ)
  if pkgloss = 1 then
    { Target := "", Error := none, PkgLoss := pkgloss,
      RTTMean := (req.Timeout : ℚ), RTTMax := (req.Timeout : ℚ), RTTMin := (req.Timeout : ℚ) }
  else
    { Target := "", Error := none, PkgLoss := pkgloss,
      RTTMean := s.mean / ((req.Count : ℚ) - s.loss), RTTMax := s.worst, RTTMin := s.best }

/-- The `Response` that `Pinger.call` sends on `done` once the collecting loop
has left the map `calc` (here `calcMap`). -/
def reduce (req : Request) (calcMap : GoMap ℚ) : Response :=
  finish req (reduceLoop req calcMap)

/-! ## The engine state and the steps of one call -/

/-- The channel capacity in `make(chan echoRsp, 1024)`. -/
def chanCap : Nat := 1024

/-- The struct `Pinger`: the fields the correlation engine reads and writes.
A channel of `echoRsps` is the list of the observations it buffers. -/
structure Pinger where
  counter : Int
  echoReqs : GoMap echoReq
  echoRsps : GoMap (List echoRsp)
  pending : GoMap Request
  closing : Bool
deriving DecidableEq

/-- The library function `rand.Int31n(n)` for `n > 0`: the accepted 31-bit draw
`v` reduced modulo `n`, a value in `[0, n)`. -/
def Int31n (n : Int) (v : Nat) : Int := (v : Int) % n

/-- The state `NewPinger` builds: empty maps and the counter
`int(rand.Int31n(int32(math.MaxUint16)))`, where `v` is the draw. -/
def NewPinger (v : Nat) : Pinger :=
  { counter := Int31n MaxUint16 v, echoReqs := GoMap.make, echoRsps := GoMap.make,
    pending := GoMap.make, closing := false }

/-- The method `Pinger.Close`: the flag it sets. -/
def Pinger.Close (pg : Pinger) : Pinger := { pg with closing := true }

/-- The method `Pinger.NumPending`. -/
def Pinger.NumPending (pg : Pinger) : Nat := pg.pending.size

/-- The increment step of `Pinger.Call`: `if pg.counter >= math.MaxUint16
{ pg.counter = 0 }; pg.counter += 1`. -/
def nextCounter (counter : Int) : Int :=
  (if counter ≥ MaxUint16 then 0 else counter) + 1

/-- The conversion `uint16(x)` of a Go `int`. -/
def toUint16 (x : Int) : Int := x % 65536

/-- Go `int` arithmetic: the result wrapped into 64 bits. -/
def wrapInt64 (x : Int) : Int := (x + 2 ^ 63) % 2 ^ 64 - 2 ^ 63

/-- The ICMPv4 layer of a captured frame: `TypeCode` is `type << 8 | code`. -/
structure ICMPv4 where
  TypeCode : Nat
  Id : Nat
  Seq : Nat
deriving DecidableEq

/-- A captured frame as `serveConn` reads it: its ICMPv4 layer and the source
address of its IPv4 layer, each absent when the layer is. -/
structure Frame where
  icmp : Option ICMPv4
  srcIP : Option String
deriving DecidableEq

/-- One iteration of the loop of `Pinger.serveConn` on the frame `f`, with
`microsecond()` returning `now`.  On a full channel the code blocks in the
send until the call receives; the model has no blocked dispatcher, the step
leaves the state as it is and the delivery is a later `frame` event of the
schedule. -/
def serveConn (pg : Pinger) (f : Frame) (now : ℚ) : Pinger :=
  match f.icmp with
  | none => pg
  | some icmpPkg =>
    if icmpPkg.TypeCode ≠ 0 then pg
    else
      match f.srcIP with
      | none => pg
      | some src =>
        let key := genid icmpPkg.Id src
        match pg.echoRsps.find key with
        | none => pg
        | some r =>
          if r.length < chanCap then
            let item : echoRsp :=
              { id := icmpPkg.Id, seq := icmpPkg.Seq, code := icmpPkg.TypeCode % 256, t := now }
            { pg with echoRsps := pg.echoRsps.store key (r ++ [item]) }
          else pg

/-- The live state of one `Call`: the engine, the request, the caller's
goroutine (`registered` once it has written `pending`, then the sending loop
with its `i`, left when `sending` is false), the collecting goroutine
(`calcMap`) and the channel `done`. -/
structure CallState where
  pg : Pinger
  req : Request
  registered : Bool
  i : Int
  sending : Bool
  calcMap : GoMap ℚ
  done : Option Response
deriving DecidableEq

/-- The body of `case item := <-r` in `Pinger.call` after the closing check:
the round-trip time is stored under the key and the probe is deleted. -/
def consume (st : CallState) (item : echoRsp) : CallState :=
  let key := genid item.id item.seq
  let sent : ℚ := match st.pg.echoReqs.find key with
    | some p => p.t
    | none => 0
  { st with
    calcMap := st.calcMap.store key (item.t - sent),
    pg := { st.pg with echoReqs := st.pg.echoReqs.remove key } }

/-- The code of `Pinger.call` after the collecting loop: the reducer, the two
`delete`s and the send on `done`. -/
def leave (st : CallState) : CallState :=
  { st with
    pg := { st.pg with echoRsps := st.pg.echoRsps.remove st.req.rid,
                       pending := st.pg.pending.remove st.req.rid },
    done := some (reduce st.req st.calcMap) }

/-- What can happen next while a call is in flight. -/
inductive Event where
  /-- The caller's goroutine runs `pg.pending[req.rid()] = req`, after `go pg.call`. -/
  | register
  /-- The sending loop of `Call` runs its next iteration; `microsecond()` is `t`. -/
  | send (t : ℚ)
  /-- The dispatcher `serveConn` handles a captured frame; `microsecond()` is `t`. -/
  | frame (f : Frame) (t : ℚ)
  /-- The `select` of `call` takes `case item := <-r`. -/
  | recv
  /-- The `select` of `call` takes `case <-deadline`. -/
  | deadline
  /-- The method `Close` sets `pg.closing`. -/
  | close
deriving DecidableEq

/-- One step of a call in flight. -/
def step (st : CallState) : Event → CallState
  | Event.register =>
    if st.registered then st
    else
      { st with
        pg := { st.pg with pending := st.pg.pending.store st.req.rid st.req },
        registered := true }
  | Event.send t =>
    if st.registered = false then st
    else if st.sending = false then st
    else if ¬ (st.i < st.req.Count) then { st with sending := false }
    else if st.pg.closing then { st with sending := false }
    else
      let probe : echoReq := { id := st.req.id, seq := st.i, t := t }
      { st with
        pg := { st.pg with echoReqs := st.pg.echoReqs.store (genid st.req.id st.i) probe },
        i := st.i + 1 }
  | Event.frame f t => { st with pg := serveConn st.pg f t }
  | Event.recv =>
    if st.done.isSome then st
    else
      match st.pg.echoRsps.find st.req.rid with
      | some (item :: rest) =>
        let st := { st with pg := { st.pg with echoRsps := st.pg.echoRsps.store st.req.rid rest } }
        if st.pg.closing then leave st
        else
          let st := consume st item
          if (st.calcMap.size : Int) = st.req.Count then leave st else st
      | _ => st
  | Event.deadline => if st.done.isSome then st else leave st
  | Event.close => { st with pg := st.pg.Close }

/-- The method `Pinger.Call` on the engine `pg`: `resolve` is the result of
`net.ResolveIPAddr` and `events` the schedule of the call in flight, which
starts once the channel is registered and `go pg.call(req, done)` has run.
The result is `none` when the schedule ends before `Call` can return, that is
before the sending loop has been left and `done` holds the response. -/
def Call (pg : Pinger) (request : Request) (resolve : Except String String)
    (events : List Event) : Option (Response × Pinger) :=
  let req := request.setDefaults
  match resolve with
  | Except.error err =>
    some ({ Target := req.Target, Error := some err,
            PkgLoss := 0, RTTMax := 0, RTTMin := 0, RTTMean := 0 }, pg)
  | Except.ok ip =>
    let pg := { pg with counter := nextCounter pg.counter }
    let req := { req with id := pg.counter, resolved := ip }
    let req := { req with deadline := wrapInt64 (req.Count * req.Interval + req.Timeout) }
    let pg := { pg with echoRsps := pg.echoRsps.store req.rid [] }
    let st := events.foldl step
      { pg := pg, req := req, registered := false, i := 0, sending := true,
        calcMap := GoMap.make, done := none }
    -- the loop `for i := 0; i < req.Count; i++` is left once `i` reaches `Count`
    if st.registered = false then none
    else if st.sending ∧ st.i < st.req.Count then none
    else
      match st.done with
      | none => none
      | some r => some ({ r with Target := st.req.Target }, st.pg)

/-- The zero value of `Response`, which a missing key of `data` yields. -/
def Response.zero : Response :=
  { Target := "", Error := none, PkgLoss := 0, RTTMax := 0, RTTMin := 0, RTTMean := 0 }

/-- The method `Pinger.CallMulti`: `results` holds, for each request, the value
`pg.Call(req)` of its goroutine, and `order` the order in which the goroutines
took `mutex` to write `data`. -/
def CallMulti (requests : List Request) (results : List Response) (order : List Nat) :
    List Response :=
  let data : GoMap Response := order.foldl
    (fun data i =>
      match requests[i]?, results[i]? with
      | some req, some r => data.store req.Target { r with Target := req.Target }
      | _, _ => data)
    GoMap.make
  requests.map (fun request => (data.find request.Target).getD Response.zero)

/-- An echo-reply frame (type 0, code 0) from the source address `src`, with
the identifier `id` and the sequence `seq`, as captured off the wire. -/
def echoReplyFrame (id seq : Nat) (src : String) : Frame :=
  { icmp := some { TypeCode := 0, Id := id, Seq := seq }, srcIP := some src }

/-! ## Reference definitions of the reducer, after the specification -/

/-- Reference: an implausible round-trip value, greater than 1,000,000 ms, is
clamped to 0 before aggregation. -/
def specClamp (v : ℚ) : ℚ := if v > 1000000 then 0 else v

/-- Reference: the clamped round-trip times of the matched sequences among
`0 .. Count - 1`, in sequence order. -/
def specMatched (req : Request) (calcMap : GoMap ℚ) : List ℚ :=
  (List.range req.Count.toNat).filterMap
    (fun (i : Nat) => (calcMap.find (genid req.id (i : Int))).map specClamp)

/-- Reference: the loss count, the number of sequences among `0 .. Count - 1`
with no recorded round-trip time. -/
def specLoss (req : Request) (calcMap : GoMap ℚ) : Nat :=
  ((List.range req.Count.toNat).filter
    (fun (i : Nat) => (calcMap.find (genid req.id (i : Int))).isNone)).length

/-! ## The reducer with float64 rounding

`reduce` above computes in exact rationals.  The definitions below are the
same lines of `Pinger.call` with every float64 operation (the conversions
`float64(...)`, `+=`, `-` and `/`) rounded to nearest, ties to even.  Results
beyond `math.MaxFloat64` (infinities) and divisions by zero (NaN) are outside
this model. -/

/-- The power `2 ^ k` of an integer exponent, as a rational. -/
def pow2 (k : Int) : ℚ :=
  if 0 ≤ k then ((2 ^ k.toNat : Nat) : ℚ) else 1 / ((2 ^ (-k).toNat : Nat) : ℚ)

/-- The binary logarithm of a natural number, rounded down, by halving at most
`fuel` times. -/
def log2Fuel : Nat → Nat → Nat
  | 0, _ => 0
  | fuel + 1, n => if 2 ≤ n then log2Fuel fuel (n / 2) + 1 else 0

/-- The binary exponent of a positive rational `x`: the `e` with
`2 ^ e ≤ x < 2 ^ (e + 1)`. -/
def ilog2 (x : ℚ) : Int :=
  let e0 : Int := (log2Fuel x.num.natAbs x.num.natAbs : Int) - (log2Fuel x.den x.den : Int)
  if pow2 e0 ≤ x then e0 else e0 - 1

/-- Rounding to the nearest integer, ties to the even one. -/
def roundHalfEven (y : ℚ) : Int :=
  let f : Int := y.num / (y.den : Int)
  let r : ℚ := y - (f : ℚ)
  if r < 1 / 2 then f
  else if 1 / 2 < r then f + 1
  else if f % 2 = 0 then f
  else f + 1

/-- The float64 nearest to the real `x` (IEEE 754 binary64, round to nearest,
ties to even): 53 significant bits, exponent at least `-1022`. -/
def roundF64 (x : ℚ) : ℚ :=
  if x = 0 then 0
  else
    let a : ℚ := if x < 0 then -x else x
    let e : Int := if ilog2 a < -1022 then -1022 else ilog2 a
    let q : ℚ := pow2 (e - 52)
    (roundHalfEven (x / q) : ℚ) * q

/-- One iteration of the reducing loop of `Pinger.call`, in float64. -/
def reduceStepF64 (calcMap : GoMap ℚ) (id : Int) (s : Stats) (i : Nat) : Stats :=
  match calcMap.find (genid id (i : Int)) with
  | none => { s with loss := roundF64 (s.loss + 1) }
  | some v0 =>
    let v := if v0 > 1000000 then 0 else v0
    let best := if s.best > v then v else s.best
    let worst := if s.worst < v then v else s.worst
    { s with best := best, worst := worst, mean := roundF64 (s.mean + v) }

/-- The reducing loop of `Pinger.call`, in float64. -/
def reduceLoopF64 (req : Request) (calcMap : GoMap ℚ) : Stats :=
  (List.range req.Count.toNat).foldl (reduceStepF64 calcMap req.id) Stats.init

/-- The end of `Pinger.call`, in float64. -/
def finishF64 (req : Request) (s : Stats) : Response :=
  let pkgloss := roundF64 (s.loss / roundF64 (req.Count : ℚ))
  if pkgloss = 1 then
    { Target := "", Error := none, PkgLoss := pkgloss,
      RTTMean := roundF64 (req.Timeout : ℚ), RTTMax := roundF64 (req.Timeout : ℚ),
      RTTMin := roundF64 (req.Timeout : ℚ) }
  else
    { Target := "", Error := none, PkgLoss := pkgloss,
      RTTMean := roundF64 (s.mean / roundF64 (roundF64 (req.Count : ℚ) - s.loss)),
      RTTMax := s.worst, RTTMin := s.best }

/-- The `Response` that `Pinger.call` sends on `done`, in float64. -/
def reduceF64 (req : Request) (calcMap : GoMap ℚ) : Response :=
  finishF64 req (reduceLoopF64 req calcMap)

end Yap

namespace Yap

/-! ## Lemmas on the reducing loop -/

section ReduceLoop

variable (calcMap : GoMap ℚ) (id : Int)

theorem foldl_reduceStep_loss (l : List Nat) (s : Stats) :
    (l.foldl (reduceStep calcMap id) s).loss =
      s.loss + ((l.filter (fun (i : Nat) => (calcMap.find (genid id (i : Int))).isNone)).length : ℚ) := by
  induction l generalizing s with
  | nil => simp
  | cons i l ih =>
    rw [List.foldl_cons, ih]
    cases h : calcMap.find (genid id (i : Int)) with
    | none => simp [reduceStep, h, List.filter_cons]; ring
    | some v => simp [reduceStep, h, List.filter_cons]

theorem foldl_reduceStep_mean (l : List Nat) (s : Stats) :
    (l.foldl (reduceStep calcMap id) s).mean =
      s.mean + (l.filterMap
        (fun (i : Nat) => (calcMap.find (genid id (i : Int))).map specClamp)).sum := by
  induction l generalizing s with
  | nil => simp
  | cons i l ih =>
    rw [List.foldl_cons, ih]
    cases h : calcMap.find (genid id (i : Int)) with
    | none => simp [reduceStep, h, List.filterMap_cons]
    | some v => simp [reduceStep, h, List.filterMap_cons, specClamp]; ring

theorem foldl_reduceStep_best_le (l : List Nat) (s : Stats) :
    (l.foldl (reduceStep calcMap id) s).best ≤ s.best ∧
      ∀ v ∈ l.filterMap (fun (i : Nat) => (calcMap.find (genid id (i : Int))).map specClamp),
        (l.foldl (reduceStep calcMap id) s).best ≤ v := by
  induction l generalizing s with
  | nil => simp
  | cons i l ih =>
    rw [List.foldl_cons]
    obtain ⟨h1, h2⟩ := ih (reduceStep calcMap id s i)
    cases h : calcMap.find (genid id (i : Int)) with
    | none =>
      have hs : (reduceStep calcMap id s i).best = s.best := by simp [reduceStep, h]
      refine ⟨hs ▸ h1, ?_⟩
      intro v hv
      simp only [List.filterMap_cons, h, Option.map_none'] at hv
      exact h2 v hv
    | some w =>
      have hs : (reduceStep calcMap id s i).best = min s.best (specClamp w) := by
        simp only [reduceStep, h, specClamp, gt_iff_lt]
        split_ifs with ha hb hb
        · exact (min_eq_right (le_of_lt hb)).symm
        · exact (min_eq_left (not_lt.mp hb)).symm
        · exact (min_eq_right (le_of_lt hb)).symm
        · exact (min_eq_left (not_lt.mp hb)).symm
      rw [hs] at h1
      refine ⟨le_trans h1 (min_le_left _ _), ?_⟩
      intro v hv
      simp only [List.filterMap_cons, h, Option.map_some', List.mem_cons] at hv
      rcases hv with rfl | hv
      · exact le_trans h1 (min_le_right _ _)
      · exact h2 v hv

theorem foldl_reduceStep_best_mem (l : List Nat) (s : Stats) :
    (l.foldl (reduceStep calcMap id) s).best = s.best ∨
      (l.foldl (reduceStep calcMap id) s).best ∈
        l.filterMap (fun (i : Nat) => (calcMap.find (genid id (i : Int))).map specClamp) := by
  induction l generalizing s with
  | nil => simp
  | cons i l ih =>
    rw [List.foldl_cons]
    cases h : calcMap.find (genid id (i : Int)) with
    | none =>
      have hs : (reduceStep calcMap id s i).best = s.best := by simp [reduceStep, h]
      rcases ih (reduceStep calcMap id s i) with h1 | h1
      · exact Or.inl (h1.trans hs)
      · right
        simpa only [List.filterMap_cons, h, Option.map_none'] using h1
    | some w =>
      have hs : (reduceStep calcMap id s i).best = s.best ∨
          (reduceStep calcMap id s i).best = specClamp w := by
        simp only [reduceStep, h, specClamp, gt_iff_lt]
        split_ifs <;> simp
      simp only [List.filterMap_cons, h, Option.map_some', List.mem_cons]
      rcases ih (reduceStep calcMap id s i) with h1 | h1
      · rcases hs with hs | hs
        · exact Or.inl (h1.trans hs)
        · exact Or.inr (Or.inl (h1.trans hs))
      · exact Or.inr (Or.inr h1)

theorem foldl_reduceStep_worst_ge (l : List Nat) (s : Stats) :
    s.worst ≤ (l.foldl (reduceStep calcMap id) s).worst ∧
      ∀ v ∈ l.filterMap (fun (i : Nat) => (calcMap.find (genid id (i : Int))).map specClamp),
        v ≤ (l.foldl (reduceStep calcMap id) s).worst := by
  induction l generalizing s with
  | nil => simp
  | cons i l ih =>
    rw [List.foldl_cons]
    obtain ⟨h1, h2⟩ := ih (reduceStep calcMap id s i)
    cases h : calcMap.find (genid id (i : Int)) with
    | none =>
      have hs : (reduceStep calcMap id s i).worst = s.worst := by simp [reduceStep, h]
      refine ⟨hs ▸ h1, ?_⟩
      intro v hv
      simp only [List.filterMap_cons, h, Option.map_none'] at hv
      exact h2 v hv
    | some w =>
      have hs : (reduceStep calcMap id s i).worst = max s.worst (specClamp w) := by
        simp only [reduceStep, h, specClamp, gt_iff_lt]
        split_ifs with ha hb hb
        · exact (max_eq_right (le_of_lt hb)).symm
        · exact (max_eq_left (not_lt.mp hb)).symm
        · exact (max_eq_right (le_of_lt hb)).symm
        · exact (max_eq_left (not_lt.mp hb)).symm
      rw [hs] at h1
      refine ⟨le_trans (le_max_left _ _) h1, ?_⟩
      intro v hv
      simp only [List.filterMap_cons, h, Option.map_some', List.mem_cons] at hv
      rcases hv with rfl | hv
      · exact le_trans (le_max_right _ _) h1
      · exact h2 v hv

theorem foldl_reduceStep_worst_mem (l : List Nat) (s : Stats) :
    (l.foldl (reduceStep calcMap id) s).worst = s.worst ∨
      (l.foldl (reduceStep calcMap id) s).worst ∈
        l.filterMap (fun (i : Nat) => (calcMap.find (genid id (i : Int))).map specClamp) := by
  induction l generalizing s with
  | nil => simp
  | cons i l ih =>
    rw [List.foldl_cons]
    cases h : calcMap.find (genid id (i : Int)) with
    | none =>
      have hs : (reduceStep calcMap id s i).worst = s.worst := by simp [reduceStep, h]
      rcases ih (reduceStep calcMap id s i) with h1 | h1
      · exact Or.inl (h1.trans hs)
      · right
        simpa only [List.filterMap_cons, h, Option.map_none'] using h1
    | some w =>
      have hs : (reduceStep calcMap id s i).worst = s.worst ∨
          (reduceStep calcMap id s i).worst = specClamp w := by
        simp only [reduceStep, h, specClamp, gt_iff_lt]
        split_ifs <;> simp
      simp only [List.filterMap_cons, h, Option.map_some', List.mem_cons]
      rcases ih (reduceStep calcMap id s i) with h1 | h1
      · rcases hs with hs | hs
        · exact Or.inl (h1.trans hs)
        · exact Or.inr (Or.inl (h1.trans hs))
      · exact Or.inr (Or.inr h1)

end ReduceLoop

/-! ## Lemmas on `setDefaults` and on the reducer as a whole -/

theorem setDefaults_Count (r : Request) :
    r.setDefaults.Count = if r.Count ≤ 0 then DefaultPingCount else r.Count := by
  unfold Request.setDefaults
  by_cases h1 : r.Count ≤ 0 <;> by_cases h2 : r.Interval ≤ 0 <;> by_cases h3 : r.Timeout ≤ 0 <;>
    simp [h1, h2, h3]

theorem setDefaults_Count_pos (r : Request) : 0 < r.setDefaults.Count := by
  rw [setDefaults_Count]
  split_ifs with h
  · decide
  · omega

theorem setDefaults_Target (r : Request) : r.setDefaults.Target = r.Target := by
  unfold Request.setDefaults
  by_cases h1 : r.Count ≤ 0 <;> by_cases h2 : r.Interval ≤ 0 <;> by_cases h3 : r.Timeout ≤ 0 <;>
    simp [h1, h2, h3]

/-- The request `Call` hands to `call` (identifier, address and deadline set
after `setDefaults`) is a defaulted request. -/
theorem setDefaults_with_id (r : Request) (c d : Int) (ip : String) :
    ({ r.setDefaults with id := c, resolved := ip, deadline := d } : Request) =
      ({ r with id := c, resolved := ip, deadline := d } : Request).setDefaults := by
  unfold Request.setDefaults
  by_cases h1 : r.Count ≤ 0 <;> by_cases h2 : r.Interval ≤ 0 <;> by_cases h3 : r.Timeout ≤ 0 <;>
    simp [h1, h2, h3]

theorem filter_isNone_add_filterMap (f : Nat → Option ℚ) (g : ℚ → ℚ) (l : List Nat) :
    (l.filter (fun (i : Nat) => (f i).isNone)).length +
      (l.filterMap (fun (i : Nat) => (f i).map g)).length = l.length := by
  induction l with
  | nil => simp
  | cons i l ih =>
    cases h : f i with
    | none => simp [List.filter_cons, List.filterMap_cons, h]; omega
    | some v => simp [List.filter_cons, List.filterMap_cons, h]; omega

theorem specLoss_add_length (req : Request) (calcMap : GoMap ℚ) :
    specLoss req calcMap + (specMatched req calcMap).length = req.Count.toNat := by
  unfold specLoss specMatched
  rw [filter_isNone_add_filterMap (fun (i : Nat) => calcMap.find (genid req.id (i : Int)))
    specClamp, List.length_range]

theorem cast_toNat_Count (req : Request) (hpos : 0 < req.Count) :
    ((req.Count.toNat : ℕ) : ℚ) = (req.Count : ℚ) := by
  have h : ((req.Count.toNat : ℕ) : ℤ) = req.Count := Int.toNat_of_nonneg (le_of_lt hpos)
  exact_mod_cast congrArg (fun (z : ℤ) => (z : ℚ)) h

theorem reduceLoop_loss (req : Request) (calcMap : GoMap ℚ) :
    (reduceLoop req calcMap).loss = (specLoss req calcMap : ℚ) := by
  unfold reduceLoop specLoss
  rw [foldl_reduceStep_loss]
  simp [Stats.init]

theorem reduceLoop_mean (req : Request) (calcMap : GoMap ℚ) :
    (reduceLoop req calcMap).mean = (specMatched req calcMap).sum := by
  unfold reduceLoop specMatched
  rw [foldl_reduceStep_mean]
  simp [Stats.init]

theorem specClamp_le (v : ℚ) : specClamp v ≤ 1000000 := by
  unfold specClamp
  split_ifs with h
  · norm_num
  · exact not_lt.mp h

theorem specClamp_lt_MaxFloat64 (v : ℚ) : specClamp v < MaxFloat64 := by
  have h := specClamp_le v
  have h2 : (1000000 : ℚ) < MaxFloat64 := by
    unfold MaxFloat64
    norm_num
  exact lt_of_le_of_lt h h2

theorem mem_specMatched_clamp {req : Request} {calcMap : GoMap ℚ} {v : ℚ}
    (hv : v ∈ specMatched req calcMap) : ∃ w, v = specClamp w := by
  unfold specMatched at hv
  rw [List.mem_filterMap] at hv
  obtain ⟨i, _, hi⟩ := hv
  cases h : calcMap.find (genid req.id (i : Int)) with
  | none => simp [h] at hi
  | some w =>
    simp only [h, Option.map_some', Option.some.injEq] at hi
    exact ⟨w, hi.symm⟩

/-- The packet loss of the response is the loss count over `Count`. -/
theorem reduce_PkgLoss (req : Request) (calcMap : GoMap ℚ) :
    (reduce req calcMap).PkgLoss = (specLoss req calcMap : ℚ) / (req.Count : ℚ) := by
  unfold reduce finish
  simp only [reduceLoop_loss]
  split_ifs <;> rfl

/-- With a positive `Count`, the packet loss is 1 exactly when nothing matched. -/
theorem reduce_PkgLoss_eq_one_iff (req : Request) (calcMap : GoMap ℚ) (hpos : 0 < req.Count) :
    (specLoss req calcMap : ℚ) / (req.Count : ℚ) = 1 ↔ specMatched req calcMap = [] := by
  have hc : (0 : ℚ) < (req.Count : ℚ) := by exact_mod_cast hpos
  have hsum := specLoss_add_length req calcMap
  have hcast := cast_toNat_Count req hpos
  rw [div_eq_one_iff_eq (ne_of_gt hc), ← hcast, Nat.cast_inj, ← List.length_eq_zero]
  omega

/-- The best, worst and mean of the response when something matched. -/
theorem reduce_of_matched (req : Request) (calcMap : GoMap ℚ) (hpos : 0 < req.Count)
    (hm : specMatched req calcMap ≠ []) :
    (reduce req calcMap).RTTMean =
        (specMatched req calcMap).sum / ((req.Count : ℚ) - (specLoss req calcMap : ℚ)) ∧
      (reduce req calcMap).RTTMin = (reduceLoop req calcMap).best ∧
      (reduce req calcMap).RTTMax = (reduceLoop req calcMap).worst := by
  have hne : ¬ ((reduceLoop req calcMap).loss / (req.Count : ℚ) = 1) := by
    rw [reduceLoop_loss, reduce_PkgLoss_eq_one_iff req calcMap hpos]
    exact hm
  unfold reduce finish
  rw [if_neg hne]
  refine ⟨?_, rfl, rfl⟩
  show (reduceLoop req calcMap).mean / ((req.Count : ℚ) - (reduceLoop req calcMap).loss) = _
  rw [reduceLoop_loss, reduceLoop_mean]

theorem reduceLoop_best_le (req : Request) (calcMap : GoMap ℚ) :
    ∀ v ∈ specMatched req calcMap, (reduceLoop req calcMap).best ≤ v :=
  (foldl_reduceStep_best_le calcMap req.id (List.range req.Count.toNat) Stats.init).2

theorem reduceLoop_best_mem (req : Request) (calcMap : GoMap ℚ)
    (hm : specMatched req calcMap ≠ []) :
    (reduceLoop req calcMap).best ∈ specMatched req calcMap := by
  rcases foldl_reduceStep_best_mem calcMap req.id (List.range req.Count.toNat) Stats.init
    with h | h
  · exfalso
    obtain ⟨v, hv⟩ := List.exists_mem_of_ne_nil _ hm
    have h1 := reduceLoop_best_le req calcMap v hv
    obtain ⟨w, rfl⟩ := mem_specMatched_clamp hv
    have h2 := specClamp_lt_MaxFloat64 w
    have h3 : (reduceLoop req calcMap).best = MaxFloat64 := h
    rw [h3] at h1
    exact absurd h2 (not_lt.mpr h1)
  · exact h

theorem reduceLoop_worst_ge (req : Request) (calcMap : GoMap ℚ) :
    ∀ v ∈ specMatched req calcMap, v ≤ (reduceLoop req calcMap).worst :=
  (foldl_reduceStep_worst_ge calcMap req.id (List.range req.Count.toNat) Stats.init).2

theorem reduceLoop_worst_nonneg (req : Request) (calcMap : GoMap ℚ) :
    0 ≤ (reduceLoop req calcMap).worst :=
  (foldl_reduceStep_worst_ge calcMap req.id (List.range req.Count.toNat) Stats.init).1

theorem reduceLoop_worst_mem (req : Request) (calcMap : GoMap ℚ) :
    (reduceLoop req calcMap).worst = 0 ∨
      (reduceLoop req calcMap).worst ∈ specMatched req calcMap :=
  foldl_reduceStep_worst_mem calcMap req.id (List.range req.Count.toNat) Stats.init

theorem specMatched_eq_nil (req : Request) (calcMap : GoMap ℚ)
    (hnone : ∀ i : Nat, (i : Int) < req.Count →
      calcMap.find (genid req.id (i : Int)) = none) :
    specMatched req calcMap = [] := by
  rw [List.eq_nil_iff_forall_not_mem]
  intro v hv
  unfold specMatched at hv
  rw [List.mem_filterMap] at hv
  obtain ⟨i, hi, hf⟩ := hv
  rw [List.mem_range, Int.lt_toNat] at hi
  rw [hnone i hi] at hf
  simp at hf

theorem specClamp_nonneg {w : ℚ} (hw : 0 ≤ w) : 0 ≤ specClamp w := by
  unfold specClamp
  split_ifs
  · exact le_refl 0
  · exact hw

theorem specMatched_nonneg (req : Request) (calcMap : GoMap ℚ)
    (hnn : ∀ (i : Nat) (w : ℚ), (i : Int) < req.Count →
      calcMap.find (genid req.id (i : Int)) = some w → 0 ≤ w) :
    ∀ v ∈ specMatched req calcMap, 0 ≤ v := by
  intro v hv
  unfold specMatched at hv
  rw [List.mem_filterMap] at hv
  obtain ⟨i, hi, hf⟩ := hv
  rw [List.mem_range, Int.lt_toNat] at hi
  cases h : calcMap.find (genid req.id (i : Int)) with
  | none => simp [h] at hf
  | some w =>
    simp only [h, Option.map_some', Option.some.injEq] at hf
    rw [← hf]
    exact specClamp_nonneg (hnn i w hi h)

/-! ## The claims on the reducer -/

/-- C1: total loss reports the timeout.  For every request, after defaulting,
and every map `calc` in which no sequence `0 .. Count - 1` has a recorded
round-trip time, the response of `call` has `PkgLoss = 1` and
`RTTMin = RTTMean = RTTMax =` the request's `Timeout`. -/
theorem total_loss_reports_timeout (request : Request) (calcMap : GoMap ℚ)
    (hnone : ∀ i : Nat, (i : Int) < request.setDefaults.Count →
      calcMap.find (genid request.setDefaults.id (i : Int)) = none) :
    (reduce request.setDefaults calcMap).PkgLoss = 1 ∧
      (reduce request.setDefaults calcMap).RTTMin = (request.setDefaults.Timeout : ℚ) ∧
      (reduce request.setDefaults calcMap).RTTMean = (request.setDefaults.Timeout : ℚ) ∧
      (reduce request.setDefaults calcMap).RTTMax = (request.setDefaults.Timeout : ℚ) := by
  have hpos := setDefaults_Count_pos request
  have hnil := specMatched_eq_nil request.setDefaults calcMap hnone
  have hone : (reduceLoop request.setDefaults calcMap).loss /
      (request.setDefaults.Count : ℚ) = 1 := by
    rw [reduceLoop_loss, reduce_PkgLoss_eq_one_iff _ calcMap hpos]
    exact hnil
  unfold reduce finish
  rw [if_pos hone]
  exact ⟨hone, rfl, rfl, rfl⟩

/-- Witness of C1: `Count = 3`, `Interval = 10`, `Timeout = 50` and no reply
give `PkgLoss = 1` and the three round-trip fields equal to 50. -/
theorem total_loss_reports_timeout_witness :
    (reduce (Request.setDefaults ⟨7, 80, "10.0.0.1", "a", 3, 10, 50⟩) []).PkgLoss = 1 ∧
      (reduce (Request.setDefaults ⟨7, 80, "10.0.0.1", "a", 3, 10, 50⟩) []).RTTMin = 50 ∧
      (reduce (Request.setDefaults ⟨7, 80, "10.0.0.1", "a", 3, 10, 50⟩) []).RTTMean = 50 ∧
      (reduce (Request.setDefaults ⟨7, 80, "10.0.0.1", "a", 3, 10, 50⟩) []).RTTMax = 50 := by
  have h := total_loss_reports_timeout ⟨7, 80, "10.0.0.1", "a", 3, 10, 50⟩ []
    (fun _ _ => rfl)
  have ht : ((Request.setDefaults ⟨7, 80, "10.0.0.1", "a", 3, 10, 50⟩).Timeout : ℚ) = 50 := by
    decide!
  rw [ht] at h
  exact h

/-- C2: for every request, also one with `Count ≤ 0` (which `setDefaults`
replaces by 3, so the divisor is positive), and every map `calc`, the
response's `PkgLoss` is the number of sequences in `0 .. Count - 1` with no
recorded round-trip time divided by `Count`, and lies between 0 and 1. -/
theorem pkgloss_is_fraction_in_unit_interval (request : Request) (calcMap : GoMap ℚ) :
    (reduce request.setDefaults calcMap).PkgLoss =
        (specLoss request.setDefaults calcMap : ℚ) / (request.setDefaults.Count : ℚ) ∧
      request.setDefaults.Count = (if request.Count ≤ 0 then 3 else request.Count) ∧
      0 < request.setDefaults.Count ∧
      0 ≤ (reduce request.setDefaults calcMap).PkgLoss ∧
      (reduce request.setDefaults calcMap).PkgLoss ≤ 1 := by
  have hpos := setDefaults_Count_pos request
  have hc : (0 : ℚ) < (request.setDefaults.Count : ℚ) := by exact_mod_cast hpos
  have hsum := specLoss_add_length request.setDefaults calcMap
  have hcast := cast_toNat_Count request.setDefaults hpos
  have hle : (specLoss request.setDefaults calcMap : ℚ) ≤ (request.setDefaults.Count : ℚ) := by
    rw [← hcast]
    exact_mod_cast Nat.le.intro hsum
  refine ⟨reduce_PkgLoss _ _, setDefaults_Count request, hpos, ?_, ?_⟩
  · rw [reduce_PkgLoss]
    exact div_nonneg (Nat.cast_nonneg _) (le_of_lt hc)
  · rw [reduce_PkgLoss]
    exact (div_le_one hc).mpr hle

/-! ### Lemmas on float64 rounding and on the float64 reducing loop -/

theorem pow2_pos (k : Int) : 0 < pow2 k := by
  unfold pow2
  split_ifs
  · exact_mod_cast Nat.pos_pow_of_pos _ (by decide)
  · apply div_pos one_pos
    exact_mod_cast Nat.pos_pow_of_pos _ (by decide)

theorem roundHalfEven_nonneg {y : ℚ} (hy : 0 ≤ y) : 0 ≤ roundHalfEven y := by
  have hf : (0 : Int) ≤ y.num / (y.den : Int) :=
    Int.ediv_nonneg (Rat.num_nonneg.mpr hy) (Int.ofNat_nonneg _)
  unfold roundHalfEven
  simp only
  split_ifs <;> omega

theorem roundF64_zero : roundF64 0 = 0 := by
  simp [roundF64]

theorem roundF64_nonneg {x : ℚ} (hx : 0 ≤ x) : 0 ≤ roundF64 x := by
  unfold roundF64
  by_cases h0 : x = 0
  · rw [if_pos h0]
  · rw [if_neg h0]
    dsimp only
    apply mul_nonneg
    · exact_mod_cast roundHalfEven_nonneg (div_nonneg hx (le_of_lt (pow2_pos _)))
    · exact le_of_lt (pow2_pos _)

/-- A matched sequence leaves `best ≤ worst`, whatever the locals were. -/
theorem reduceStepF64_best_le_worst (calcMap : GoMap ℚ) (id : Int) (s : Stats) (i : Nat)
    (w : ℚ) (hw : calcMap.find (genid id (i : Int)) = some w)
    (hs : s.best ≤ s.worst ∨ s.best = MaxFloat64) :
    (reduceStepF64 calcMap id s i).best ≤ (reduceStepF64 calcMap id s i).worst := by
  have hc := specClamp_lt_MaxFloat64 w
  unfold specClamp at hc
  simp only [reduceStepF64, hw, gt_iff_lt]
  rcases hs with hs | hs
  · split_ifs <;> linarith
  · rw [hs]
    split_ifs <;> linarith

/-- The float64 reducing loop over matched sequences: the loss stays 0 and
`best ≤ worst` is kept. -/
theorem foldl_reduceStepF64_matched (calcMap : GoMap ℚ) (id : Int) (l : List Nat)
    (hall : ∀ i ∈ l, ∃ w, calcMap.find (genid id (i : Int)) = some w) (s : Stats)
    (hloss : s.loss = 0) (hs : s.best ≤ s.worst ∨ s.best = MaxFloat64) :
    (l.foldl (reduceStepF64 calcMap id) s).loss = 0 ∧
      ((l.foldl (reduceStepF64 calcMap id) s).best ≤
          (l.foldl (reduceStepF64 calcMap id) s).worst ∨
        (l = [] ∧ s.best = MaxFloat64)) := by
  induction l generalizing s with
  | nil =>
    rcases hs with hs | hs
    · exact ⟨hloss, Or.inl hs⟩
    · exact ⟨hloss, Or.inr ⟨rfl, hs⟩⟩
  | cons i l ih =>
    obtain ⟨w, hw⟩ := hall i (List.mem_cons_self i l)
    have hstep := reduceStepF64_best_le_worst calcMap id s i w hw hs
    have hloss' : (reduceStepF64 calcMap id s i).loss = 0 := by
      simp only [reduceStepF64, hw]
      exact hloss
    rw [List.foldl_cons]
    obtain ⟨h1, h2⟩ := ih (fun j hj => hall j (List.mem_cons_of_mem i hj))
      (reduceStepF64 calcMap id s i) hloss' (Or.inl hstep)
    refine ⟨h1, Or.inl ?_⟩
    rcases h2 with h2 | ⟨hl, _⟩
    · exact h2
    · subst hl
      exact hstep

/-- The float64 reducing loop over matched sequences with round-trip times
`≥ 0` keeps `best`, `mean` and `worst` at `≥ 0`. -/
theorem foldl_reduceStepF64_nonneg (calcMap : GoMap ℚ) (id : Int) (l : List Nat)
    (hall : ∀ i ∈ l, ∃ w, calcMap.find (genid id (i : Int)) = some w ∧ 0 ≤ w) (s : Stats)
    (hbest : 0 ≤ s.best) (hmean : 0 ≤ s.mean) (hworst : 0 ≤ s.worst) :
    0 ≤ (l.foldl (reduceStepF64 calcMap id) s).best ∧
      0 ≤ (l.foldl (reduceStepF64 calcMap id) s).mean ∧
      0 ≤ (l.foldl (reduceStepF64 calcMap id) s).worst := by
  induction l generalizing s with
  | nil => exact ⟨hbest, hmean, hworst⟩
  | cons i l ih =>
    obtain ⟨w, hw, hw0⟩ := hall i (List.mem_cons_self i l)
    have hv : 0 ≤ specClamp w := specClamp_nonneg hw0
    unfold specClamp at hv
    rw [List.foldl_cons]
    apply ih (fun j hj => hall j (List.mem_cons_of_mem i hj))
    · simp only [reduceStepF64, hw, gt_iff_lt]
      split_ifs <;> linarith
    · simp only [reduceStepF64, hw, gt_iff_lt]
      exact roundF64_nonneg (add_nonneg hmean hv)
    · simp only [reduceStepF64, hw, gt_iff_lt]
      split_ifs <;> linarith

theorem MaxFloat64_nonneg : 0 ≤ MaxFloat64 := by
  unfold MaxFloat64
  norm_num

theorem log2Fuel_spec : ∀ (fuel n : Nat), n ≤ fuel → 1 ≤ n →
    2 ^ log2Fuel fuel n ≤ n ∧ n < 2 ^ (log2Fuel fuel n + 1) := by
  intro fuel
  induction fuel with
  | zero => intro n h0 h1; omega
  | succ fuel ih =>
    intro n hn h1
    unfold log2Fuel
    split_ifs with h2
    · obtain ⟨ha, hb⟩ := ih (n / 2) (by omega) (by omega)
      rw [pow_succ, pow_succ]
      rw [pow_succ] at hb
      constructor <;> omega
    · have : n = 1 := by omega
      subst this
      simp

theorem pow2_eq_zpow (k : Int) : pow2 k = (2 : ℚ) ^ k := by
  unfold pow2
  split_ifs with h
  · obtain ⟨n, rfl⟩ := Int.eq_ofNat_of_zero_le h
    simp
  · have h' : 0 ≤ -k := by omega
    obtain ⟨n, hn⟩ := Int.eq_ofNat_of_zero_le h'
    have hk : k = -(n : ℤ) := by omega
    subst hk
    simp

theorem ilog2_spec {x : ℚ} (hx : 0 < x) :
    pow2 (ilog2 x) ≤ x ∧ x < pow2 (ilog2 x + 1) := by
  have hnum : 0 < x.num := Rat.num_pos.mpr hx
  have hn1 : 1 ≤ x.num.natAbs := by omega
  have hd1 : 1 ≤ x.den := x.den_pos
  obtain ⟨ha1, ha2⟩ := log2Fuel_spec x.num.natAbs x.num.natAbs (le_refl _) hn1
  obtain ⟨hb1, hb2⟩ := log2Fuel_spec x.den x.den (le_refl _) hd1
  have hxeq : x = (x.num.natAbs : ℚ) / (x.den : ℚ) := by
    have h1 : ((x.num.natAbs : ℤ) : ℚ) = (x.num : ℚ) := by
      rw [Int.natAbs_of_nonneg (le_of_lt hnum)]
    rw [← Int.cast_natCast, h1, Rat.num_div_den]
  have ha1' : (2 : ℚ) ^ log2Fuel x.num.natAbs x.num.natAbs ≤ (x.num.natAbs : ℚ) := by
    exact_mod_cast ha1
  have ha2' : (x.num.natAbs : ℚ) < (2 : ℚ) ^ (log2Fuel x.num.natAbs x.num.natAbs + 1) := by
    exact_mod_cast ha2
  have hb1' : (2 : ℚ) ^ log2Fuel x.den x.den ≤ (x.den : ℚ) := by
    exact_mod_cast hb1
  have hb2' : (x.den : ℚ) < (2 : ℚ) ^ (log2Fuel x.den x.den + 1) := by
    exact_mod_cast hb2
  have hdq : (0 : ℚ) < (x.den : ℚ) := by exact_mod_cast hd1
  have h2 : (2 : ℚ) ≠ 0 := by norm_num
  have hpa : (0 : ℚ) < (2 : ℚ) ^ log2Fuel x.num.natAbs x.num.natAbs := by positivity
  have hpb : (0 : ℚ) < (2 : ℚ) ^ log2Fuel x.den x.den := by positivity
  -- the two candidate exponents
  have hup : x < pow2 ((log2Fuel x.num.natAbs x.num.natAbs : ℤ) -
      (log2Fuel x.den x.den : ℤ) + 1) := by
    rw [pow2_eq_zpow, zpow_add₀ h2, zpow_sub₀ h2, zpow_natCast, zpow_natCast, zpow_one]
    rw [pow_succ] at ha2'
    conv_lhs => rw [hxeq]
    rw [div_mul_eq_mul_div, div_lt_div_iff₀ hdq hpb]
    nlinarith
  have hlo : pow2 ((log2Fuel x.num.natAbs x.num.natAbs : ℤ) -
      (log2Fuel x.den x.den : ℤ) - 1) ≤ x := by
    rw [pow2_eq_zpow, zpow_sub₀ h2, zpow_sub₀ h2, zpow_natCast, zpow_natCast, zpow_one]
    rw [pow_succ] at hb2'
    conv_rhs => rw [hxeq]
    rw [div_div, div_le_div_iff₀ (by positivity) hdq]
    nlinarith
  unfold ilog2
  dsimp only
  split_ifs with h
  · exact ⟨h, hup⟩
  · refine ⟨hlo, ?_⟩
    rw [sub_add_cancel]
    exact not_le.mp h


theorem pow2_le_pow2 {a b : Int} (h : a ≤ b) : pow2 a ≤ pow2 b := by
  rw [pow2_eq_zpow, pow2_eq_zpow]
  exact zpow_le_zpow_right₀ (by norm_num) h

theorem lt_of_pow2_lt_pow2 {a b : Int} (h : pow2 a < pow2 b) : a < b := by
  rw [pow2_eq_zpow, pow2_eq_zpow] at h
  exact (zpow_lt_zpow_iff_right₀ (by norm_num)).mp h

theorem le_roundHalfEven {y : ℚ} {z : Int} (h : (z : ℚ) ≤ y) : z ≤ roundHalfEven y := by
  have hf : z ≤ y.num / (y.den : Int) := by
    rw [← Rat.floor_def']
    exact Rat.le_floor.mpr h
  unfold roundHalfEven
  simp only
  split_ifs <;> omega

theorem roundHalfEven_le (y : ℚ) : (roundHalfEven y : ℚ) ≤ y + 1 := by
  have hf : ((y.num / (y.den : Int) : Int) : ℚ) ≤ y := by
    rw [← Rat.floor_def']
    exact Rat.le_floor.mp (le_refl _)
  have h1 : roundHalfEven y ≤ y.num / (y.den : Int) + 1 := by
    unfold roundHalfEven
    simp only
    split_ifs <;> omega
  have h2 : (roundHalfEven y : ℚ) ≤ ((y.num / (y.den : Int) + 1 : Int) : ℚ) := by
    exact_mod_cast h1
  push_cast at h2
  linarith

/-- Rounding does not go below a power of two at or under the argument. -/
theorem pow2_le_roundF64 {x : ℚ} {m : Int} (hm : -1022 ≤ m) (hx : pow2 m ≤ x) :
    pow2 m ≤ roundF64 x := by
  have hx0 : 0 < x := lt_of_lt_of_le (pow2_pos m) hx
  obtain ⟨hlo, hhi⟩ := ilog2_spec hx0
  have hme : m ≤ ilog2 x := by
    have := lt_of_pow2_lt_pow2 (lt_of_le_of_lt hx hhi)
    omega
  have h2 : (2 : ℚ) ≠ 0 := by norm_num
  unfold roundF64
  rw [if_neg (ne_of_gt hx0)]
  dsimp only
  rw [if_neg (not_lt.mpr (le_of_lt hx0)), if_neg (by omega)]
  have hq := pow2_pos (ilog2 x - 52)
  have hy : ((2 ^ 52 : Int) : ℚ) ≤ x / pow2 (ilog2 x - 52) := by
    rw [le_div_iff₀ hq]
    have : ((2 ^ 52 : Int) : ℚ) * pow2 (ilog2 x - 52) = pow2 (ilog2 x) := by
      rw [pow2_eq_zpow, pow2_eq_zpow, zpow_sub₀ h2]
      push_cast
      field_simp
      ring
    rw [this]
    exact hlo
  have hr : ((2 ^ 52 : Int) : ℚ) ≤ (roundHalfEven (x / pow2 (ilog2 x - 52)) : ℚ) := by
    exact_mod_cast le_roundHalfEven hy
  calc pow2 m ≤ pow2 (ilog2 x) := pow2_le_pow2 hme
    _ = ((2 ^ 52 : Int) : ℚ) * pow2 (ilog2 x - 52) := by
      rw [pow2_eq_zpow, pow2_eq_zpow, zpow_sub₀ h2]
      push_cast
      field_simp
      ring
    _ ≤ (roundHalfEven (x / pow2 (ilog2 x - 52)) : ℚ) * pow2 (ilog2 x - 52) :=
      mul_le_mul_of_nonneg_right hr (le_of_lt hq)

/-- Rounding at most doubles a value that is at least 1. -/
theorem roundF64_le_two_mul {x : ℚ} (hx : 1 ≤ x) : roundF64 x ≤ 2 * x := by
  have hx0 : 0 < x := lt_of_lt_of_le one_pos hx
  obtain ⟨hlo, hhi⟩ := ilog2_spec hx0
  have h1 : pow2 0 = 1 := by rw [pow2_eq_zpow, zpow_zero]
  have he : 0 ≤ ilog2 x := by
    have := lt_of_pow2_lt_pow2 (lt_of_le_of_lt (h1 ▸ hx) hhi)
    omega
  unfold roundF64
  rw [if_neg (ne_of_gt hx0)]
  dsimp only
  rw [if_neg (not_lt.mpr (le_of_lt hx0)), if_neg (by omega)]
  have hq := pow2_pos (ilog2 x - 52)
  have hqx : pow2 (ilog2 x - 52) ≤ x :=
    le_trans (pow2_le_pow2 (by omega)) hlo
  have hr := roundHalfEven_le (x / pow2 (ilog2 x - 52))
  calc (roundHalfEven (x / pow2 (ilog2 x - 52)) : ℚ) * pow2 (ilog2 x - 52)
      ≤ (x / pow2 (ilog2 x - 52) + 1) * pow2 (ilog2 x - 52) :=
        mul_le_mul_of_nonneg_right hr (le_of_lt hq)
    _ = x + pow2 (ilog2 x - 52) := by
      field_simp
    _ ≤ 2 * x := by linarith


theorem one_le_roundF64 {x : ℚ} (hx : 1 ≤ x) : 1 ≤ roundF64 x := by
  have h1 : pow2 0 = 1 := by rw [pow2_eq_zpow, zpow_zero]
  have h := pow2_le_roundF64 (x := x) (m := 0) (by decide) (h1 ▸ hx)
  rw [h1] at h
  exact h

theorem foldl_reduceStepF64_loss_ge (calcMap : GoMap ℚ) (id : Int) (l : List Nat) (s : Stats)
    (hs : 1 ≤ s.loss) : 1 ≤ (l.foldl (reduceStepF64 calcMap id) s).loss := by
  induction l generalizing s with
  | nil => exact hs
  | cons i l ih =>
    rw [List.foldl_cons]
    apply ih
    cases h : calcMap.find (genid id (i : Int)) with
    | none =>
      simp only [reduceStepF64, h]
      exact one_le_roundF64 (by linarith)
    | some w =>
      simp only [reduceStepF64, h]
      exact hs

theorem foldl_reduceStepF64_loss_cases (calcMap : GoMap ℚ) (id : Int) (l : List Nat)
    (s : Stats) (hs : s.loss = 0) :
    ((l.foldl (reduceStepF64 calcMap id) s).loss = 0 ∧
        ∀ i ∈ l, ∃ w, calcMap.find (genid id (i : Int)) = some w) ∨
      1 ≤ (l.foldl (reduceStepF64 calcMap id) s).loss := by
  induction l generalizing s with
  | nil => exact Or.inl ⟨hs, fun i hi => absurd hi (List.not_mem_nil i)⟩
  | cons i l ih =>
    rw [List.foldl_cons]
    cases h : calcMap.find (genid id (i : Int)) with
    | none =>
      right
      apply foldl_reduceStepF64_loss_ge
      simp only [reduceStepF64, h]
      exact one_le_roundF64 (by linarith)
    | some w =>
      have hs' : (reduceStepF64 calcMap id s i).loss = 0 := by
        simp only [reduceStepF64, h]
        exact hs
      rcases ih (reduceStepF64 calcMap id s i) hs' with ⟨h0, hall⟩ | h1
      · left
        refine ⟨h0, ?_⟩
        intro j hj
        rcases List.mem_cons.mp hj with rfl | hj
        · exact ⟨w, h⟩
        · exact hall j hj
      · exact Or.inr h1

theorem reduceF64_PkgLoss (req : Request) (calcMap : GoMap ℚ) :
    (reduceF64 req calcMap).PkgLoss =
      roundF64 ((reduceLoopF64 req calcMap).loss / roundF64 (req.Count : ℚ)) := by
  unfold reduceF64 finishF64
  dsimp only
  split_ifs <;> rfl

/-- In float64, with `Count` in the range of a Go `int`, `PkgLoss = 0` only
when every sequence `0 .. Count - 1` has a recorded round-trip time. -/
theorem matched_of_PkgLoss_zero (req : Request) (calcMap : GoMap ℚ)
    (hpos : 0 < req.Count) (hrange : req.Count < 2 ^ 63)
    (hzero : (reduceF64 req calcMap).PkgLoss = 0) :
    ∀ i : Nat, (i : Int) < req.Count →
      ∃ w, calcMap.find (genid req.id (i : Int)) = some w := by
  rw [reduceF64_PkgLoss] at hzero
  rcases foldl_reduceStepF64_loss_cases calcMap req.id (List.range req.Count.toNat)
    Stats.init rfl with ⟨_, hall⟩ | hge
  · intro i hi
    exact hall i (List.mem_range.mpr (Int.lt_toNat.mpr hi))
  · exfalso
    have hge' : 1 ≤ (reduceLoopF64 req calcMap).loss := hge
    have hc1 : (1 : ℚ) ≤ (req.Count : ℚ) := by exact_mod_cast hpos
    have hc2 : (req.Count : ℚ) < 2 ^ 63 := by exact_mod_cast hrange
    have hcnt1 : 1 ≤ roundF64 (req.Count : ℚ) := one_le_roundF64 hc1
    have hcnt2 : roundF64 (req.Count : ℚ) ≤ 2 ^ 64 := by
      have := roundF64_le_two_mul hc1
      linarith
    have hcpos : 0 < roundF64 (req.Count : ℚ) := lt_of_lt_of_le one_pos hcnt1
    have h64 : pow2 (-64) = 1 / 2 ^ 64 := by
      rw [pow2_eq_zpow]
      norm_num
    have hz : pow2 (-64) ≤ (reduceLoopF64 req calcMap).loss / roundF64 (req.Count : ℚ) := by
      rw [h64, div_le_div_iff₀ (by positivity) hcpos]
      nlinarith
    have hr := pow2_le_roundF64 (by decide) hz
    rw [hzero] at hr
    exact absurd (pow2_pos (-64)) (not_lt.mpr hr)

/-! ### C3 -/

/-- Counterexample to C3 as stated, in three runs with `PkgLoss = 0`.
(1) `Count = 1`, the probe is sent when the wall clock reads `1700000000000` ms
and its reply is captured when it reads `1699999999999` ms (the clock was
stepped back): `Call` returns `RTTMin = RTTMean = -1`, which are not `≥ 0`.
(2) `Count = 3` and the float64 nearest to 0.1 recorded for every sequence:
the rounded sum and quotient give `RTTMean > RTTMax`.
(3) `Count = 3` and the float64 nearest to 0.7 recorded for every sequence:
they give `RTTMean < RTTMin`. -/
theorem rtt_order_and_sign_fail :
    ((Call (NewPinger 6) ⟨0, 0, "", "a", 1, 10, 50⟩ (Except.ok "10.0.0.1")
          [Event.register, Event.send 1700000000000,
           Event.frame (echoReplyFrame 7 0 "10.0.0.1") 1699999999999, Event.recv]).map
          Prod.fst =
        some { Target := "a", Error := none, PkgLoss := 0, RTTMax := 0, RTTMin := -1,
               RTTMean := -1 } ∧
      (reduceF64 (Request.setDefaults ⟨7, 60, "10.0.0.1", "a", 1, 10, 50⟩)
          [("7:0", -1)]).PkgLoss = 0 ∧
      ¬ (0 ≤ (reduceF64 (Request.setDefaults ⟨7, 60, "10.0.0.1", "a", 1, 10, 50⟩)
          [("7:0", -1)]).RTTMin) ∧
      ¬ (0 ≤ (reduceF64 (Request.setDefaults ⟨7, 60, "10.0.0.1", "a", 1, 10, 50⟩)
          [("7:0", -1)]).RTTMean)) ∧
    ((reduceF64 (Request.setDefaults ⟨7, 80, "10.0.0.1", "a", 3, 10, 50⟩)
          [("7:0", roundF64 (1 / 10)), ("7:1", roundF64 (1 / 10)),
           ("7:2", roundF64 (1 / 10))]).PkgLoss = 0 ∧
      ¬ ((reduceF64 (Request.setDefaults ⟨7, 80, "10.0.0.1", "a", 3, 10, 50⟩)
          [("7:0", roundF64 (1 / 10)), ("7:1", roundF64 (1 / 10)),
           ("7:2", roundF64 (1 / 10))]).RTTMean ≤
        (reduceF64 (Request.setDefaults ⟨7, 80, "10.0.0.1", "a", 3, 10, 50⟩)
          [("7:0", roundF64 (1 / 10)), ("7:1", roundF64 (1 / 10)),
           ("7:2", roundF64 (1 / 10))]).RTTMax)) ∧
    ((reduceF64 (Request.setDefaults ⟨7, 80, "10.0.0.1", "a", 3, 10, 50⟩)
          [("7:0", roundF64 (7 / 10)), ("7:1", roundF64 (7 / 10)),
           ("7:2", roundF64 (7 / 10))]).PkgLoss = 0 ∧
      ¬ ((reduceF64 (Request.setDefaults ⟨7, 80, "10.0.0.1", "a", 3, 10, 50⟩)
          [("7:0", roundF64 (7 / 10)), ("7:1", roundF64 (7 / 10)),
           ("7:2", roundF64 (7 / 10))]).RTTMin ≤
        (reduceF64 (Request.setDefaults ⟨7, 80, "10.0.0.1", "a", 3, 10, 50⟩)
          [("7:0", roundF64 (7 / 10)), ("7:1", roundF64 (7 / 10)),
           ("7:2", roundF64 (7 / 10))]).RTTMean)) := by
  decide!

/-- When every sequence `0 .. Count - 1` has a recorded round-trip time, the
float64 response has `PkgLoss = 0` and `RTTMin ≤ RTTMax`; when every one of
these recorded round-trip times is `≥ 0`, `RTTMin`, `RTTMean` and `RTTMax`
are `≥ 0`. -/
theorem reduceF64_bounds_of_matched (request : Request) (calcMap : GoMap ℚ)
    (hall : ∀ i : Nat, (i : Int) < request.setDefaults.Count →
      ∃ w, calcMap.find (genid request.setDefaults.id (i : Int)) = some w) :
    (reduceF64 request.setDefaults calcMap).PkgLoss = 0 ∧
      (reduceF64 request.setDefaults calcMap).RTTMin ≤
        (reduceF64 request.setDefaults calcMap).RTTMax ∧
      ((∀ (i : Nat) (w : ℚ), (i : Int) < request.setDefaults.Count →
          calcMap.find (genid request.setDefaults.id (i : Int)) = some w → 0 ≤ w) →
        0 ≤ (reduceF64 request.setDefaults calcMap).RTTMin ∧
        0 ≤ (reduceF64 request.setDefaults calcMap).RTTMean ∧
        0 ≤ (reduceF64 request.setDefaults calcMap).RTTMax) := by
  have hpos := setDefaults_Count_pos request
  have hc : (0 : ℚ) ≤ (request.setDefaults.Count : ℚ) := by exact_mod_cast le_of_lt hpos
  have hall' : ∀ i ∈ List.range request.setDefaults.Count.toNat,
      ∃ w, calcMap.find (genid request.setDefaults.id (i : Int)) = some w := by
    intro i hi
    rw [List.mem_range, Int.lt_toNat] at hi
    exact hall i hi
  have hne : List.range request.setDefaults.Count.toNat ≠ [] := by
    intro h
    have hlen := congrArg List.length h
    rw [List.length_range, List.length_nil] at hlen
    omega
  obtain ⟨hloss, hbw⟩ := foldl_reduceStepF64_matched calcMap request.setDefaults.id
    (List.range request.setDefaults.Count.toNat) hall' Stats.init rfl (Or.inr rfl)
  have hbw' : (reduceLoopF64 request.setDefaults calcMap).best ≤
      (reduceLoopF64 request.setDefaults calcMap).worst := by
    rcases hbw with h | ⟨h, _⟩
    · exact h
    · exact absurd h hne
  have hloss' : (reduceLoopF64 request.setDefaults calcMap).loss = 0 := hloss
  have hpk : roundF64 ((reduceLoopF64 request.setDefaults calcMap).loss /
      roundF64 (request.setDefaults.Count : ℚ)) = 0 := by
    rw [hloss', zero_div, roundF64_zero]
  have hne1 : ¬ (roundF64 ((reduceLoopF64 request.setDefaults calcMap).loss /
      roundF64 (request.setDefaults.Count : ℚ)) = 1) := by
    rw [hpk]
    exact zero_ne_one
  have hfin : reduceF64 request.setDefaults calcMap =
      { Target := "", Error := none,
        PkgLoss := roundF64 ((reduceLoopF64 request.setDefaults calcMap).loss /
          roundF64 (request.setDefaults.Count : ℚ)),
        RTTMean := roundF64 ((reduceLoopF64 request.setDefaults calcMap).mean /
          roundF64 (roundF64 (request.setDefaults.Count : ℚ) -
            (reduceLoopF64 request.setDefaults calcMap).loss)),
        RTTMax := (reduceLoopF64 request.setDefaults calcMap).worst,
        RTTMin := (reduceLoopF64 request.setDefaults calcMap).best } := by
    unfold reduceF64 finishF64
    exact if_neg hne1
  rw [hfin]
  refine ⟨hpk, hbw', ?_⟩
  intro hnn
  have hall'' : ∀ i ∈ List.range request.setDefaults.Count.toNat,
      ∃ w, calcMap.find (genid request.setDefaults.id (i : Int)) = some w ∧ 0 ≤ w := by
    intro i hi
    obtain ⟨w, hw⟩ := hall' i hi
    rw [List.mem_range, Int.lt_toNat] at hi
    exact ⟨w, hw, hnn i w hi hw⟩
  obtain ⟨hb, hm, hw⟩ := foldl_reduceStepF64_nonneg calcMap request.setDefaults.id
    (List.range request.setDefaults.Count.toNat) hall'' Stats.init MaxFloat64_nonneg
    (le_refl 0) (le_refl 0)
  refine ⟨hb, ?_, hw⟩
  apply roundF64_nonneg
  apply div_nonneg hm
  apply roundF64_nonneg
  rw [hloss', sub_zero]
  exact roundF64_nonneg hc

/-- C3, amended: for every request, with `Count` in the range of a Go `int`,
and every map `calc` for which the float64 response has `PkgLoss = 0`, every
sequence `0 .. Count - 1` has a recorded round-trip time and
`RTTMin ≤ RTTMax`; when every one of these recorded round-trip times is `≥ 0`,
`RTTMin`, `RTTMean` and `RTTMax` are `≥ 0`. -/
theorem no_loss_rtt_bounds (request : Request) (calcMap : GoMap ℚ)
    (hrange : request.setDefaults.Count < 2 ^ 63)
    (hzero : (reduceF64 request.setDefaults calcMap).PkgLoss = 0) :
    (∀ i : Nat, (i : Int) < request.setDefaults.Count →
        ∃ w, calcMap.find (genid request.setDefaults.id (i : Int)) = some w) ∧
      (reduceF64 request.setDefaults calcMap).RTTMin ≤
        (reduceF64 request.setDefaults calcMap).RTTMax ∧
      ((∀ (i : Nat) (w : ℚ), (i : Int) < request.setDefaults.Count →
          calcMap.find (genid request.setDefaults.id (i : Int)) = some w → 0 ≤ w) →
        0 ≤ (reduceF64 request.setDefaults calcMap).RTTMin ∧
        0 ≤ (reduceF64 request.setDefaults calcMap).RTTMean ∧
        0 ≤ (reduceF64 request.setDefaults calcMap).RTTMax) := by
  have hall := matched_of_PkgLoss_zero request.setDefaults calcMap
    (setDefaults_Count_pos request) hrange hzero
  exact ⟨hall, (reduceF64_bounds_of_matched request calcMap hall).2⟩

/-- Witness of C3, amended: `Count = 2` with the round-trip times 5 and 1/4. -/
theorem no_loss_rtt_bounds_witness :
    (reduceF64 (Request.setDefaults ⟨7, 70, "10.0.0.1", "a", 2, 10, 50⟩)
        [("7:0", 5), ("7:1", 1 / 4)]).PkgLoss = 0 ∧
      (reduceF64 (Request.setDefaults ⟨7, 70, "10.0.0.1", "a", 2, 10, 50⟩)
        [("7:0", 5), ("7:1", 1 / 4)]).RTTMin ≤
      (reduceF64 (Request.setDefaults ⟨7, 70, "10.0.0.1", "a", 2, 10, 50⟩)
        [("7:0", 5), ("7:1", 1 / 4)]).RTTMax ∧
      0 ≤ (reduceF64 (Request.setDefaults ⟨7, 70, "10.0.0.1", "a", 2, 10, 50⟩)
        [("7:0", 5), ("7:1", 1 / 4)]).RTTMin ∧
      0 ≤ (reduceF64 (Request.setDefaults ⟨7, 70, "10.0.0.1", "a", 2, 10, 50⟩)
        [("7:0", 5), ("7:1", 1 / 4)]).RTTMean ∧
      0 ≤ (reduceF64 (Request.setDefaults ⟨7, 70, "10.0.0.1", "a", 2, 10, 50⟩)
        [("7:0", 5), ("7:1", 1 / 4)]).RTTMax := by
  have hfind : ∀ (i : Nat) (w : ℚ),
      GoMap.find [("7:0", (5 : ℚ)), ("7:1", 1 / 4)] (genid (7 : Int) (i : Int)) = some w →
      0 ≤ w := by
    intro i w hf
    have hw : w = 5 ∨ w = 1 / 4 := by
      simp only [GoMap.find, List.lookup] at hf
      split at hf
      · left; exact (Option.some.inj hf).symm
      · split at hf
        · right; exact (Option.some.inj hf).symm
        · exact absurd hf (by simp)
    rcases hw with rfl | rfl <;> norm_num
  have hzero : (reduceF64 (Request.setDefaults ⟨7, 70, "10.0.0.1", "a", 2, 10, 50⟩)
      [("7:0", 5), ("7:1", 1 / 4)]).PkgLoss = 0 := by decide!
  have h := no_loss_rtt_bounds ⟨7, 70, "10.0.0.1", "a", 2, 10, 50⟩
    [("7:0", 5), ("7:1", 1 / 4)] (by decide) hzero
  exact ⟨hzero, h.2.1, h.2.2 (fun i w _ hf => hfind i w hf)⟩

/-! ### C4 -/

/-- C4, the code at negative round-trip times: `Count = 2`, each reply is
captured at a clock reading below the one of its probe, so that the collecting
loop records the round-trip times `-3` and `-1`.  The clamped values are `-3`
and `-1`, whose greatest is `-1`; `RTTMin = -3` and `RTTMean = -2` are as the
reference says, and `RTTMax = 0`, which is none of the clamped values: the
running maximum `worst` starts at 0 where the running minimum `best` starts
at `math.MaxFloat64`. -/
theorem rttmax_not_greatest_on_negative_rtt :
    (Call (NewPinger 6) ⟨0, 0, "", "a", 2, 10, 50⟩ (Except.ok "10.0.0.1")
        [Event.register, Event.send 1700000000000,
         Event.frame (echoReplyFrame 7 0 "10.0.0.1") 1699999999997, Event.recv,
         Event.send 1700000000010,
         Event.frame (echoReplyFrame 7 1 "10.0.0.1") 1700000000009, Event.recv]).map Prod.fst =
      some { Target := "a", Error := none, PkgLoss := 0, RTTMax := 0, RTTMin := -3,
             RTTMean := -2 } ∧
    specMatched ⟨7, 70, "10.0.0.1", "a", 2, 10, 50⟩ [("7:1", -1), ("7:0", -3)] = [-3, -1] ∧
      (reduce ⟨7, 70, "10.0.0.1", "a", 2, 10, 50⟩ [("7:1", -1), ("7:0", -3)]).RTTMax = 0 ∧
      (reduce ⟨7, 70, "10.0.0.1", "a", 2, 10, 50⟩ [("7:1", -1), ("7:0", -3)]).RTTMax ∉
        specMatched ⟨7, 70, "10.0.0.1", "a", 2, 10, 50⟩ [("7:1", -1), ("7:0", -3)] := by
  decide!

/-! ## Lemmas on Go maps and on `CallMulti` -/

theorem GoMap.find_store_self {ν : Type} (m : GoMap ν) (k : String) (v : ν) :
    (m.store k v).find k = some v := by
  simp [GoMap.find, GoMap.store, List.lookup]

theorem GoMap.find_remove_ne {ν : Type} (m : GoMap ν) (k k' : String) (h : k' ≠ k) :
    (m.remove k).find k' = m.find k' := by
  induction m with
  | nil => rfl
  | cons e m ih =>
    obtain ⟨a, b⟩ := e
    unfold GoMap.find GoMap.remove at ih ⊢
    by_cases ha : a = k
    · subst ha
      have hk : (k' == a) = false := by simpa using h
      simp [List.filter_cons, List.lookup, hk, ih]
    · have hne : (a != k) = true := by simpa using ha
      simp only [List.filter_cons, hne, if_true, List.lookup]
      cases hk : (k' == a) with
      | true => rfl
      | false => exact ih

theorem GoMap.find_store_ne {ν : Type} (m : GoMap ν) (k k' : String) (v : ν) (h : k' ≠ k) :
    (m.store k v).find k' = m.find k' := by
  have hk : (k' == k) = false := by simpa using h
  have h1 : (m.store k v).find k' = (m.remove k).find k' := by
    simp [GoMap.find, GoMap.store, List.lookup, hk]
  rw [h1, GoMap.find_remove_ne m k k' h]

/-- Goroutines whose requests name other targets leave the entry of `k` in
`data` as it is. -/
theorem find_data_of_other_targets (requests : List Request) (results : List Response)
    (k : String) (post : List Nat)
    (hpost : ∀ j ∈ post, ∀ q, requests[j]? = some q → q.Target ≠ k)
    (data : GoMap Response) :
    (post.foldl
      (fun (data : GoMap Response) (j : Nat) =>
        match requests[j]?, results[j]? with
        | some req, some r => data.store req.Target { r with Target := req.Target }
        | _, _ => data) data).find k = data.find k := by
  induction post generalizing data with
  | nil => rfl
  | cons j rest ih =>
    rw [List.foldl_cons, ih (fun j' hj' => hpost j' (List.mem_cons_of_mem j hj'))]
    cases hq : requests[j]? with
    | none => rfl
    | some q =>
      cases hs : results[j]? with
      | none => rfl
      | some r =>
        have hne : k ≠ q.Target := fun h => hpost j (List.mem_cons_self j rest) q hq h.symm
        exact GoMap.find_store_ne _ _ _ _ hne

/-- The entry of a target in `data` is the response of the goroutine that
wrote it last. -/
theorem find_data_of_last_writer (requests : List Request) (results : List Response)
    (pre post : List Nat) (j : Nat) (q : Request) (r : Response)
    (hq : requests[j]? = some q) (hr : results[j]? = some r)
    (hpost : ∀ j' ∈ post, ∀ q', requests[j']? = some q' → q'.Target ≠ q.Target)
    (data : GoMap Response) :
    ((pre ++ j :: post).foldl
      (fun (data : GoMap Response) (j : Nat) =>
        match requests[j]?, results[j]? with
        | some req, some r => data.store req.Target { r with Target := req.Target }
        | _, _ => data) data).find q.Target = some { r with Target := q.Target } := by
  rw [List.foldl_append, List.foldl_cons,
    find_data_of_other_targets requests results q.Target post hpost]
  simp only [hq, hr]
  exact GoMap.find_store_self _ _ _

/-! ## The claims on `CallMulti`, `Call` and the identifier counter -/

/-- Counterexample to C6 as stated: two requests name the same target `a`, the
first call lost every packet and the second none; the second goroutine writes
`data` last and the first element of the result is the second response, not
the one `Call` produced for the first request. -/
theorem callmulti_same_target_overwrites :
    (CallMulti [⟨0, 0, "", "a", 1, 10, 50⟩, ⟨0, 0, "", "a", 2, 10, 50⟩]
        [{ Response.zero with Target := "a", PkgLoss := 1, RTTMax := 50, RTTMin := 50,
                              RTTMean := 50 },
         { Response.zero with Target := "a", PkgLoss := 0, RTTMax := 5, RTTMin := 5,
                              RTTMean := 5 }]
        [0, 1])[0]? ≠
      some { Response.zero with Target := "a", PkgLoss := 1, RTTMax := 50, RTTMin := 50,
                                RTTMean := 50 } := by
  decide!

/-- C6, amended: for every list of requests the result of `CallMulti` has the
length of the input, and its `i`-th element is the response `Call` produced
for the request that wrote `data` last among those naming the `i`-th request's
target.  So it is the response `Call` produced for the `i`-th request itself,
whatever the order in which the calls completed, whenever no other request of
the list names the `i`-th request's target. -/
theorem callmulti_in_caller_order (requests : List Request) (results : List Response)
    (order : List Nat) :
    (CallMulti requests results order).length = requests.length ∧
      (∀ (i : Nat) (req : Request) (pre post : List Nat) (j : Nat) (req' : Request)
          (r' : Response),
          requests[i]? = some req → order = pre ++ j :: post →
          requests[j]? = some req' → results[j]? = some r' → req'.Target = req.Target →
          (∀ j' ∈ post, ∀ q, requests[j']? = some q → q.Target ≠ req.Target) →
          (CallMulti requests results order)[i]? = some { r' with Target := req.Target }) ∧
      (order.Perm (List.range requests.length) →
        ∀ (i : Nat) (req : Request) (r : Response),
          requests[i]? = some req → results[i]? = some r → r.Target = req.Target →
          (∀ (j : Nat) (q : Request), requests[j]? = some q → q.Target = req.Target → j = i) →
          (CallMulti requests results order)[i]? = some r) := by
  have hlast : ∀ (i : Nat) (req : Request) (pre post : List Nat) (j : Nat) (req' : Request)
      (r' : Response),
      requests[i]? = some req → order = pre ++ j :: post →
      requests[j]? = some req' → results[j]? = some r' → req'.Target = req.Target →
      (∀ j' ∈ post, ∀ q, requests[j']? = some q → q.Target ≠ req.Target) →
      (CallMulti requests results order)[i]? = some { r' with Target := req.Target } := by
    intro i req pre post j req' r' hreq horder hreq' hr' htarget hpost
    have hfind := find_data_of_last_writer requests results pre post j req' r' hreq' hr'
      (by rw [htarget]; exact hpost) GoMap.make
    rw [htarget] at hfind
    unfold CallMulti
    rw [List.getElem?_map, hreq, horder]
    simp only [Option.map_some']
    rw [hfind]
    rfl
  refine ⟨by simp [CallMulti], hlast, ?_⟩
  intro hperm i req r hreq hr htarget huniq
  have hi : i < requests.length := (List.getElem?_eq_some_iff.mp hreq).1
  have hmem : i ∈ order := hperm.mem_iff.mpr (List.mem_range.mpr hi)
  have hnodup : order.Nodup := hperm.nodup_iff.mpr (List.nodup_range _)
  obtain ⟨pre, post, horder⟩ := List.append_of_mem hmem
  have hnotin : i ∉ post := by
    rw [horder] at hnodup
    have h2 := (List.nodup_append.mp hnodup).2.1
    exact (List.nodup_cons.mp h2).1
  have hrr : ({ r with Target := req.Target } : Response) = r := by
    rw [← htarget]
  rw [← hrr]
  refine hlast i req pre post i req r hreq horder hreq hr rfl ?_
  intro j' hj' q hq ht
  have hji := huniq j' q hq ht
  rw [hji] at hj'
  exact hnotin hj'

/-- Witness of C6, amended: the targets `a`, `b`, `b`, the call to the first
`b` completing first and the call to `a` second; the first element of the
result is the response of the call to `a`. -/
theorem callmulti_in_caller_order_witness :
    (CallMulti
        [⟨0, 0, "", "a", 1, 10, 50⟩, ⟨0, 0, "", "b", 2, 10, 50⟩, ⟨0, 0, "", "b", 3, 10, 50⟩]
        [{ Response.zero with Target := "a", PkgLoss := 1, RTTMax := 50, RTTMin := 50,
                              RTTMean := 50 },
         { Response.zero with Target := "b", PkgLoss := 0, RTTMax := 5, RTTMin := 5,
                              RTTMean := 5 },
         { Response.zero with Target := "b", PkgLoss := 0, RTTMax := 7, RTTMin := 6,
                              RTTMean := 13 / 2 }]
        [1, 0, 2])[0]? =
      some { Response.zero with Target := "a", PkgLoss := 1, RTTMax := 50, RTTMin := 50,
                                RTTMean := 50 } :=
  (callmulti_in_caller_order
    [⟨0, 0, "", "a", 1, 10, 50⟩, ⟨0, 0, "", "b", 2, 10, 50⟩, ⟨0, 0, "", "b", 3, 10, 50⟩]
    [{ Response.zero with Target := "a", PkgLoss := 1, RTTMax := 50, RTTMin := 50,
                          RTTMean := 50 },
     { Response.zero with Target := "b", PkgLoss := 0, RTTMax := 5, RTTMin := 5,
                          RTTMean := 5 },
     { Response.zero with Target := "b", PkgLoss := 0, RTTMax := 7, RTTMin := 6,
                          RTTMean := 13 / 2 }]
    [1, 0, 2]).2.2 (by decide) 0 _ _ rfl rfl rfl (by
      intro j q hq ht
      rcases j with _ | _ | _ | j
      · rfl
      · simp only [zero_add, List.getElem?_cons_succ, List.getElem?_cons_zero,
          Option.some.injEq] at hq
        subst hq
        exact absurd ht (by decide)
      · simp only [List.getElem?_cons_succ, List.getElem?_cons_zero,
          Option.some.injEq] at hq
        subst hq
        exact absurd ht (by decide)
      · simp at hq)

/-- C7: resolution failure is reported without side effects.  For every
request whose target fails to resolve, `Call` returns a response with `Error`
set, `Target` the request's target and `PkgLoss = RTTMin = RTTMean = RTTMax = 0`,
and leaves the counter, `echoReqs`, `echoRsps` and `pending` as they were, so
that `NumPending` is the same before and after. -/
theorem resolution_failure_without_side_effects (pg : Pinger) (request : Request)
    (err : String) (events : List Event) :
    ∃ (r : Response) (pg' : Pinger),
      Call pg request (Except.error err) events = some (r, pg') ∧
      r.Error = some err ∧ r.Target = request.Target ∧
      r.PkgLoss = 0 ∧ r.RTTMin = 0 ∧ r.RTTMean = 0 ∧ r.RTTMax = 0 ∧
      pg'.counter = pg.counter ∧ pg'.echoReqs = pg.echoReqs ∧
      pg'.echoRsps = pg.echoRsps ∧ pg'.pending = pg.pending ∧
      pg'.NumPending = pg.NumPending :=
  ⟨_, pg, rfl, rfl, setDefaults_Target request, rfl, rfl, rfl, rfl, rfl, rfl, rfl, rfl, rfl⟩

/-- The identifier issued by the allocation number `n + 1`, in closed form. -/
theorem iterate_nextCounter (c : Int) (h0 : 0 ≤ c) (h1 : c ≤ 65535) (n : Nat) :
    nextCounter^[n + 1] c = (c + (n : Int)) % 65535 + 1 := by
  induction n with
  | zero =>
    simp only [Function.iterate_succ, Function.iterate_zero, Function.comp_apply, id_eq,
      nextCounter, MaxUint16]
    split_ifs <;> omega
  | succ n ih =>
    rw [Function.iterate_succ_apply', ih]
    simp only [nextCounter, MaxUint16]
    split_ifs <;> omega

/-- C8: the identifier allocator is a wrapping counter over the 16-bit space
with no early reuse.  The seed of `NewPinger` lies in `0 .. 65534`; starting
from any counter value in `0 .. 65535`, every
identifier issued by the increment step of `Call` lies in `1 .. 65535` and is
the `uint16` the dispatcher reads back, and any 65535 consecutive allocations
issue pairwise distinct identifiers. -/
theorem allocator_wraps_without_early_reuse (c : Int) (h0 : 0 ≤ c) (h1 : c ≤ 65535) :
    (∀ v : Nat, 0 ≤ (NewPinger v).counter ∧ (NewPinger v).counter ≤ 65534) ∧
      (∀ n : Nat, 1 ≤ nextCounter^[n + 1] c ∧ nextCounter^[n + 1] c ≤ 65535 ∧
        toUint16 (nextCounter^[n + 1] c) = nextCounter^[n + 1] c) ∧
      (∀ i j : Nat, i < j → j < i + 65535 →
        nextCounter^[i + 1] c ≠ nextCounter^[j + 1] c) := by
  refine ⟨?_, ?_, ?_⟩
  · intro v
    simp only [NewPinger, Int31n, MaxUint16]
    omega
  · intro n
    rw [iterate_nextCounter c h0 h1 n]
    unfold toUint16
    omega
  · intro i j hij hj
    rw [iterate_nextCounter c h0 h1 i, iterate_nextCounter c h0 h1 j]
    omega

/-- Witness of C8: from the counter value 65535 the first identifier is 1 and
differs from the one issued 65534 allocations later. -/
theorem allocator_wraps_without_early_reuse_witness :
    (1 ≤ nextCounter^[0 + 1] 65535 ∧ nextCounter^[0 + 1] 65535 ≤ 65535 ∧
        toUint16 (nextCounter^[0 + 1] 65535) = nextCounter^[0 + 1] 65535) ∧
      nextCounter^[0 + 1] 65535 ≠ nextCounter^[65534 + 1] 65535 :=
  ⟨(allocator_wraps_without_early_reuse 65535 (by decide) (by decide)).2.1 0,
   (allocator_wraps_without_early_reuse 65535 (by decide) (by decide)).2.2 0 65534
     (by decide) (by decide)⟩

/-! ## The collecting loop and the probe ledger, run on concrete schedules -/

/-- C5, the code at a duplicate reply: `Count = 2`, probes sent at
`1700000000000` and `1700000000010` ms, each answered after 5 ms.  Without a
duplicate the response has `RTTMin = RTTMean = RTTMax = 5`.  With a second
reply for sequence 0 consumed one millisecond after the first, the time
recorded for sequence 0 is overwritten by the reply's own timestamp (the
probe is gone from `echoReqs`), the reducer clamps it to 0, and the response
has `RTTMin = 0` and `RTTMean = 5/2`. -/
theorem duplicate_reply_overwrites_rtt :
    (Call (NewPinger 6) ⟨0, 0, "", "a", 2, 10, 50⟩ (Except.ok "10.0.0.1")
        [Event.register, Event.send 1700000000000,
         Event.frame (echoReplyFrame 7 0 "10.0.0.1") 1700000000005, Event.recv,
         Event.send 1700000000010,
         Event.frame (echoReplyFrame 7 1 "10.0.0.1") 1700000000015, Event.recv]).map Prod.fst =
      some { Target := "a", Error := none, PkgLoss := 0, RTTMax := 5, RTTMin := 5,
             RTTMean := 5 } ∧
    (Call (NewPinger 6) ⟨0, 0, "", "a", 2, 10, 50⟩ (Except.ok "10.0.0.1")
        [Event.register, Event.send 1700000000000,
         Event.frame (echoReplyFrame 7 0 "10.0.0.1") 1700000000005, Event.recv,
         Event.frame (echoReplyFrame 7 0 "10.0.0.1") 1700000000006, Event.recv,
         Event.send 1700000000010,
         Event.frame (echoReplyFrame 7 1 "10.0.0.1") 1700000000015, Event.recv]).map Prod.fst =
      some { Target := "a", Error := none, PkgLoss := 0, RTTMax := 5, RTTMin := 0,
             RTTMean := 5 / 2 } := by
  decide!

/-- C9, the code at a stray sequence number: `Count = 3`, three probes sent,
replies with the sequences 0, 1 and 7 consumed.  After the third reply
`len(calc) = 3 = Count` and the collecting loop stops, with no deadline event
in the schedule, although sequence 2 has no recorded round-trip time: the
response has `PkgLoss = 1/3`. -/
theorem early_exit_counts_stray_sequence :
    Event.deadline ∉
        [Event.register, Event.send 1700000000000, Event.send 1700000000010, Event.send 1700000000020,
         Event.frame (echoReplyFrame 7 0 "10.0.0.1") 1700000000005,
         Event.frame (echoReplyFrame 7 1 "10.0.0.1") 1700000000015,
         Event.frame (echoReplyFrame 7 7 "10.0.0.1") 1700000000016,
         Event.recv, Event.recv, Event.recv] ∧
    (Call (NewPinger 6) ⟨0, 0, "", "a", 3, 10, 50⟩ (Except.ok "10.0.0.1")
        [Event.register, Event.send 1700000000000, Event.send 1700000000010, Event.send 1700000000020,
         Event.frame (echoReplyFrame 7 0 "10.0.0.1") 1700000000005,
         Event.frame (echoReplyFrame 7 1 "10.0.0.1") 1700000000015,
         Event.frame (echoReplyFrame 7 7 "10.0.0.1") 1700000000016,
         Event.recv, Event.recv, Event.recv]).map Prod.fst =
      some { Target := "a", Error := none, PkgLoss := 1 / 3, RTTMax := 5, RTTMin := 5,
             RTTMean := 5 } := by
  decide!

/-- C10, the code at a lost probe: `Count = 1`, the probe is sent and no reply
arrives before the deadline.  `Call` returns the total-loss response with
`echoRsps` and `pending` emptied, and the ledger `echoReqs` still holds the
probe of sequence 0 under the call's identifier 7. -/
theorem lost_probe_stays_in_ledger :
    Call (NewPinger 6) ⟨0, 0, "", "a", 1, 10, 50⟩ (Except.ok "10.0.0.1")
        [Event.register, Event.send 1700000000000, Event.deadline] =
      some ({ Target := "a", Error := none, PkgLoss := 1, RTTMax := 50, RTTMin := 50,
              RTTMean := 50 },
            { counter := 7,
              echoReqs := [(genid (7 : Int) (0 : Int), { id := 7, seq := 0, t := 1700000000000 })],
              echoRsps := [], pending := [], closing := false }) := by
  decide!

end Yap
